import Mathlib

/-!
Verification development for the l2vpn data plane: a shallow embedding of
the switchport loops in src/bin/vport.rs and of the switch dispatch loop in
src/bin/vswitch.rs, followed by theorems about frame padding, runt dropping,
MAC learning and the forwarding decision.

Bytes are modelled as Nat, MAC addresses as 6-byte lists, and transport
endpoints (Rust SocketAddr values) as an abstract Nat identifier compared
for equality, which is the only operation the code performs on them.
A Rust slice-index panic is modelled as Option.none.
-/

set_option maxRecDepth 2000

namespace L2vpn

abbrev Byte := Nat

abbrev Mac := List Byte

abbrev Endpoint := Nat

/-- Constant ETHER_MTU from vport.rs. -/
def ETHER_MTU : Nat := 1518

/-- Constant ETHER_MIN from vport.rs. -/
def ETHER_MIN : Nat := 64

/-- Constant ETHER_HDR from vport.rs. -/
def ETHER_HDR : Nat := 14

/-- Constant ETHER_FCS from vport.rs. -/
def ETHER_FCS : Nat := 4

/-- Constant ETHER_DATA_MIN = ETHER_MIN - ETHER_HDR - ETHER_FCS from vport.rs. -/
def ETHER_DATA_MIN : Nat := ETHER_MIN - ETHER_HDR - ETHER_FCS

/-- Constant MTU from vswitch.rs (size of the receive buffer). -/
def MTU : Nat := 1518

/-- Effect on the fixed receive buffer of reading a frame into its front
(tap_file.read or socket recv_from): the first frame.length bytes are
overwritten, the tail keeps its previous contents. -/
def writeInto (oldBuf frame : List Byte) : List Byte :=
  frame ++ oldBuf.drop frame.length

/-- The padding step of tap_to_vswitch in vport.rs: if bytes_read is below
ETHER_DATA_MIN, zero the buffer slice from bytes_read up to ETHER_DATA_MIN
and continue with bytes_read = ETHER_DATA_MIN; otherwise leave both alone.
Returns the buffer and the byte count after the step. -/
def padIfUndersized (buf : List Byte) (bytesRead : Nat) : List Byte × Nat :=
  if bytesRead < ETHER_DATA_MIN then
    (buf.take bytesRead ++ List.replicate (ETHER_DATA_MIN - bytesRead) 0 ++
      buf.drop ETHER_DATA_MIN, ETHER_DATA_MIN)
  else (buf, bytesRead)

/-- One iteration of the tap_to_vswitch loop in vport.rs, given the buffer
contents left by previous iterations and the frame read from the device:
read into the buffer, pad if undersized, then send buf[..bytes_read] to the
switch. Returns the buffer after the iteration and the datagram sent. -/
def tapToVswitchStep (oldBuf frame : List Byte) : List Byte × List Byte :=
  let buf := writeInto oldBuf frame
  let padded := padIfUndersized buf frame.length
  (padded.1, padded.1.take padded.2)

/-- One iteration of the vswitch_to_tap loop in vport.rs, given the buffer
contents left by previous iterations and the datagram received from the
socket: if the received length is below ETHER_MIN, log and continue without
writing (modelled as none); otherwise write buf[..bytes_read] to the device.
Returns the buffer after the iteration and the bytes written, if any. -/
def vswitchToTapStep (oldBuf datagram : List Byte) : List Byte × Option (List Byte) :=
  let buf := writeInto oldBuf datagram
  if datagram.length < ETHER_MIN then (buf, none)
  else (buf, some (buf.take datagram.length))

/-- The all-ones broadcast MAC address, [0xFF; 6] in vswitch.rs. -/
def broadcastMac : Mac := [255, 255, 255, 255, 255, 255]

/-- The switch forwarding table: HashMap<[u8; 6], SocketAddr> modelled as an
association list with unique keys. -/
abbrev MacTable := List (Mac × Endpoint)

/-- HashMap::get. -/
def mtGet (t : MacTable) (m : Mac) : Option Endpoint :=
  (t.find? (fun p => decide (p.1 = m))).map Prod.snd

/-- HashMap::insert: the new binding replaces any binding of the same key. -/
def mtInsert (t : MacTable) (m : Mac) (e : Endpoint) : MacTable :=
  (m, e) :: t.filter (fun p => decide (p.1 ≠ m))

/-- Rust range indexing l[a..b] on a slice: panics (none) unless
a <= b <= l.length. -/
def sliceRange (l : List Byte) (a b : Nat) : Option (List Byte) :=
  if a ≤ b ∧ b ≤ l.length then some ((l.drop a).take (b - a)) else none

/-- try_into a [u8; 6] array: succeeds exactly on 6-byte slices. -/
def tryIntoMac (l : List Byte) : Option Mac :=
  if l.length = 6 then some l else none

/-- The MAC-field extraction of vswitch.rs:
dst_mac = eth_frame[..6], src_mac = eth_frame[6..12], each converted to a
6-byte array; none models the out-of-bounds panic on short frames. -/
def extractMacs (frame : List Byte) : Option (Mac × Mac) :=
  match (sliceRange frame 0 6).bind tryIntoMac,
        (sliceRange frame 6 12).bind tryIntoMac with
  | some d, some s => some (d, s)
  | _, _ => none

/-- The learning step of vswitch.rs: if the table entry for src_mac differs
from the frame source endpoint (a missing entry counts as different), insert
src_mac -> src_vport. The Bool records whether the table was mutated. -/
def learn (t : MacTable) (srcMac : Mac) (srcVport : Endpoint) : MacTable × Bool :=
  if mtGet t srcMac = some srcVport then (t, false)
  else (mtInsert t srcMac srcVport, true)

/-- One datagram sent by the switch: destination endpoint and payload. -/
structure Send where
  dest : Endpoint
  data : List Byte
  deriving DecidableEq

/-- The forwarding decision of vswitch.rs, applied after the learning step:
known destination -> one unicast send of the whole buffer; unknown broadcast
destination -> one send of the whole buffer per table entry whose key is not
src_mac; otherwise drop. -/
def forwardSends (t : MacTable) (buf : List Byte) (dstMac srcMac : Mac) : List Send :=
  match mtGet t dstMac with
  | some dstVport => [⟨dstVport, buf⟩]
  | none =>
    if dstMac = broadcastMac then
      (t.filter (fun p => decide (p.1 ≠ srcMac))).map (fun p => ⟨p.2, buf⟩)
    else []

/-- One iteration of the switch dispatch loop in vswitch.rs, given the table,
the buffer contents left by previous iterations, the received datagram and
its source endpoint: receive into the buffer, extract the MAC fields from
buf[..no_of_bytes] (none on the out-of-bounds panic), learn, forward.
Returns the table after learning and the list of sends performed. -/
def dispatchStep (t : MacTable) (oldBuf datagram : List Byte) (srcVport : Endpoint) :
    Option (MacTable × List Send) :=
  let buf := writeInto oldBuf datagram
  match extractMacs (buf.take datagram.length) with
  | none => none
  | some (dstMac, srcMac) =>
    let t1 := (learn t srcMac srcVport).1
    some (t1, forwardSends t1 buf dstMac srcMac)

/-- The learning step applied to n consecutive frames carrying the same
source MAC and source endpoint; also counts how many of the n steps mutated
the table. -/
def learnRepeat (m : Mac) (e : Endpoint) : Nat → MacTable → MacTable × Nat
  | 0, t => (t, 0)
  | n + 1, t =>
    let r := learn t m e
    let rest := learnRepeat m e n r.1
    (rest.1, (if r.2 then 1 else 0) + rest.2)

/-! ### Concrete MAC addresses and frames used in witnesses -/

/-- A concrete 6-byte MAC address. -/
def macA : Mac := [1, 1, 1, 1, 1, 1]

/-- A concrete 6-byte MAC address. -/
def macB : Mac := [2, 2, 2, 2, 2, 2]

/-- A concrete 6-byte MAC address. -/
def macC : Mac := [3, 3, 3, 3, 3, 3]

/-- A concrete 64-byte frame with destination macA and source macB. -/
def frameC3 : List Byte := macA ++ macB ++ List.replicate 52 7

/-! ### Lemmas about the forwarding table -/

theorem mtGet_cons (k : Mac) (v : Endpoint) (t : MacTable) (m : Mac) :
    mtGet ((k, v) :: t) m = if k = m then some v else mtGet t m := by
  by_cases h : k = m <;> simp [mtGet, List.find?_cons, h]

theorem mtGet_filter_ne (t : MacTable) (m m' : Mac) (h : m' ≠ m) :
    mtGet (t.filter (fun p => decide (p.1 ≠ m))) m' = mtGet t m' := by
  induction t with
  | nil => rfl
  | cons x t ih =>
    obtain ⟨k, v⟩ := x
    by_cases hk : k = m
    · subst hk
      simp only [List.filter_cons]
      rw [if_neg (by simp), ih, mtGet_cons, if_neg (fun hkm => h hkm.symm)]
    · by_cases hk' : k = m'
      · subst hk'
        simp only [List.filter_cons]
        rw [if_pos (by simp [hk]), mtGet_cons, if_pos rfl, mtGet_cons, if_pos rfl]
      · simp only [List.filter_cons]
        rw [if_pos (by simp [hk]), mtGet_cons, if_neg hk', mtGet_cons, if_neg hk', ih]

theorem mtGet_insert_self (t : MacTable) (m : Mac) (e : Endpoint) :
    mtGet (mtInsert t m e) m = some e := by
  rw [mtInsert, mtGet_cons, if_pos rfl]

theorem mtGet_insert_ne (t : MacTable) (m m' : Mac) (e : Endpoint) (h : m' ≠ m) :
    mtGet (mtInsert t m e) m' = mtGet t m' := by
  rw [mtInsert, mtGet_cons, if_neg (fun hmm => h hmm.symm), mtGet_filter_ne t m m' h]

theorem keys_nodup_insert (t : MacTable) (m : Mac) (e : Endpoint)
    (h : (t.map Prod.fst).Nodup) : ((mtInsert t m e).map Prod.fst).Nodup := by
  rw [mtInsert, List.map_cons, List.nodup_cons]
  constructor
  · intro hmem
    obtain ⟨p, hp, hpm⟩ := List.mem_map.mp hmem
    have := (List.mem_filter.mp hp).2
    simp only [decide_eq_true_eq] at this
    exact this hpm
  · exact h.sublist ((List.filter_sublist t).map Prod.fst)

/-! ### Lemmas about the learning step -/

theorem learn_mutates_iff (t : MacTable) (m : Mac) (e : Endpoint) :
    (learn t m e).2 = true ↔ mtGet t m ≠ some e := by
  by_cases h : mtGet t m = some e <;> simp [learn, h]

theorem learn_of_get_eq (t : MacTable) (m : Mac) (e : Endpoint)
    (h : mtGet t m = some e) : learn t m e = (t, false) := by
  simp [learn, h]

theorem learn_of_get_ne (t : MacTable) (m : Mac) (e : Endpoint)
    (h : mtGet t m ≠ some e) : learn t m e = (mtInsert t m e, true) := by
  simp [learn, h]

theorem learnRepeat_of_get_eq (t : MacTable) (m : Mac) (e : Endpoint) (n : Nat)
    (h : mtGet t m = some e) : learnRepeat m e n t = (t, 0) := by
  induction n with
  | zero => rfl
  | succ k ih => simp [learnRepeat, learn_of_get_eq t m e h, ih]

/-! ### Claim theorems -/

/-- C5: the switch learning step mutates the table exactly when the current
table endpoint for the frame source MAC differs from the frame source
endpoint, a missing entry counting as different; consequently, starting from
a table that disagrees with the pair, n >= 1 consecutive frames carrying the
same (srcMac, endpoint) pair cause exactly one mutation, on the first frame,
and n - 1 no-ops. -/
theorem c5_learning_idempotence (t : MacTable) (m : Mac) (e : Endpoint) (n : Nat)
    (h : mtGet t m ≠ some e) (hn : 1 ≤ n) :
    (learnRepeat m e n t).2 = 1 ∧
      ∀ u : MacTable, ((learn u m e).2 = true ↔ mtGet u m ≠ some e) := by
  refine ⟨?_, fun u => learn_mutates_iff u m e⟩
  obtain ⟨k, rfl⟩ := Nat.exists_eq_add_of_le hn
  rw [Nat.add_comm]
  simp [learnRepeat, learn_of_get_ne t m e h,
    learnRepeat_of_get_eq _ m e k (mtGet_insert_self t m e)]

/-- Witness for C5: three frames from endpoint 10 with source macA starting
from the empty table cause exactly one mutation. -/
theorem c5_learning_idempotence_witness :
    (mtGet [] macA ≠ some 10) ∧ 1 ≤ 3 ∧ (learnRepeat macA 10 3 []).2 = 1 :=
  ⟨by decide, by decide,
    (c5_learning_idempotence [] macA 10 3 (by decide) (by decide)).1⟩

/-- C6: if the table maps a source MAC to endpoint E1 and a frame with that
source MAC arrives from a different endpoint E2, the learning step remaps the
MAC to E2, and the table keeps at most one endpoint per MAC (pairwise
distinct keys). -/
theorem c6_learning_override (t : MacTable) (m : Mac) (E1 E2 : Endpoint)
    (h1 : mtGet t m = some E1) (h2 : E2 ≠ E1) (h3 : (t.map Prod.fst).Nodup) :
    mtGet (learn t m E2).1 m = some E2 ∧ ((learn t m E2).1.map Prod.fst).Nodup := by
  have hne : mtGet t m ≠ some E2 := by
    rw [h1]
    intro hc
    exact h2 (Option.some.inj hc).symm
  rw [learn_of_get_ne t m E2 hne]
  exact ⟨mtGet_insert_self t m E2, keys_nodup_insert t m E2 h3⟩

/-- Witness for C6: a table mapping macA to endpoint 3 learns endpoint 7 for
macA when a frame with source macA arrives from endpoint 7. -/
theorem c6_learning_override_witness :
    mtGet [(macA, 3)] macA = some 3 ∧ (7 : Endpoint) ≠ 3 ∧
      (([(macA, 3)] : MacTable).map Prod.fst).Nodup ∧
      mtGet (learn [(macA, 3)] macA 7).1 macA = some 7 ∧
      ((learn [(macA, 3)] macA 7).1.map Prod.fst).Nodup := by
  have h := c6_learning_override [(macA, 3)] macA 3 7 (by decide) (by decide) (by decide)
  exact ⟨by decide, by decide, by decide, h.1, h.2⟩

/-- C8: the switchport socket-to-device loop performs no device write for a
received datagram shorter than ETHER_MIN = 64 and continues (the result is
none), and for a datagram of length at least 64 it writes exactly the full
received frame to the device. -/
theorem c8_runt_drop (oldBuf datagram : List Byte) :
    (datagram.length < ETHER_MIN → (vswitchToTapStep oldBuf datagram).2 = none) ∧
    (ETHER_MIN ≤ datagram.length →
      (vswitchToTapStep oldBuf datagram).2 = some datagram) := by
  constructor
  · intro h
    simp [vswitchToTapStep, h]
  · intro h
    simp only [vswitchToTapStep, writeInto, if_neg (Nat.not_lt.mpr h)]
    rw [List.take_left]

/-- Witness for C8: a 10-byte datagram is dropped without a device write and
a 64-byte datagram is written to the device in full. -/
theorem c8_runt_drop_witness :
    (vswitchToTapStep (List.replicate ETHER_MTU 9) (List.replicate 10 1)).2 = none ∧
    (vswitchToTapStep (List.replicate ETHER_MTU 9) (List.replicate 64 1)).2 =
      some (List.replicate 64 1) :=
  ⟨(c8_runt_drop (List.replicate ETHER_MTU 9) (List.replicate 10 1)).1 (by decide),
   (c8_runt_drop (List.replicate ETHER_MTU 9) (List.replicate 64 1)).2 (by decide)⟩

/-- C9: the switch MAC-field extraction returns dst = bytes [0,6) and
src = bytes [6,12) for every received datagram of length at least 12, and
indexes out of bounds (modelled as none) for every shorter datagram. -/
theorem c9_mac_extraction (frame : List Byte) :
    (12 ≤ frame.length →
      extractMacs frame = some (frame.take 6, (frame.drop 6).take 6)) ∧
    (frame.length < 12 → extractMacs frame = none) := by
  constructor
  · intro h
    have h6 : 6 ≤ frame.length := Nat.le_trans (by norm_num) h
    have e1 : (sliceRange frame 0 6).bind tryIntoMac = some (frame.take 6) := by
      rw [sliceRange, if_pos ⟨Nat.zero_le 6, h6⟩]
      simp only [List.drop_zero, Option.some_bind, tryIntoMac]
      rw [if_pos (by rw [List.length_take_of_le h6])]
    have e2 : (sliceRange frame 6 12).bind tryIntoMac = some ((frame.drop 6).take 6) := by
      rw [sliceRange, if_pos ⟨by norm_num, h⟩]
      simp only [Option.some_bind, tryIntoMac]
      rw [if_pos]
      rw [List.length_take_of_le (by rw [List.length_drop]; omega)]
    simp only [extractMacs, e1, e2]
  · intro h
    have e2 : sliceRange frame 6 12 = none := by
      rw [sliceRange, if_neg]
      intro hc
      omega
    simp only [extractMacs, e2, Option.none_bind]
    cases (sliceRange frame 0 6).bind tryIntoMac <;> rfl

/-- Witness for C9: extraction succeeds on a 12-byte datagram and fails on a
3-byte datagram. -/
theorem c9_mac_extraction_witness :
    extractMacs [1, 2, 3, 4, 5, 6, 7, 8, 9, 10, 11, 12] =
      some (([1, 2, 3, 4, 5, 6, 7, 8, 9, 10, 11, 12] : List Byte).take 6,
        (([1, 2, 3, 4, 5, 6, 7, 8, 9, 10, 11, 12] : List Byte).drop 6).take 6) ∧
    extractMacs [1, 2, 3] = none :=
  ⟨(c9_mac_extraction [1, 2, 3, 4, 5, 6, 7, 8, 9, 10, 11, 12]).1 (by decide),
   (c9_mac_extraction [1, 2, 3]).2 (by decide)⟩

/-- C10: the padding step of the device-to-socket loop, run on an undersized
read of length L into a full-size buffer, keeps bytes [0, L) as read from the
device, zeroes exactly bytes [L, ETHER_DATA_MIN), and leaves every byte from
ETHER_DATA_MIN on unchanged. -/
theorem c10_padding_preserves_content (buf : List Byte) (L i : Nat)
    (hL : L < ETHER_DATA_MIN) (hbuf : ETHER_DATA_MIN ≤ buf.length) :
    (i < L → ((padIfUndersized buf L).1)[i]? = buf[i]?) ∧
    (L ≤ i → i < ETHER_DATA_MIN → ((padIfUndersized buf L).1)[i]? = some 0) ∧
    (ETHER_DATA_MIN ≤ i → ((padIfUndersized buf L).1)[i]? = buf[i]?) := by
  have hLbuf : L ≤ buf.length := Nat.le_trans (Nat.le_of_lt hL) hbuf
  have hlenA : (buf.take L).length = L := List.length_take_of_le hLbuf
  have hlenAB : (buf.take L ++ List.replicate (ETHER_DATA_MIN - L) 0).length =
      ETHER_DATA_MIN := by
    rw [List.length_append, hlenA, List.length_replicate]
    omega
  rw [padIfUndersized, if_pos hL]
  refine ⟨fun hi => ?_, fun hi1 hi2 => ?_, fun hi => ?_⟩
  · rw [List.append_assoc, List.getElem?_append_left (by rw [hlenA]; exact hi),
      List.getElem?_take_of_lt hi]
  · rw [List.getElem?_append_left (by rw [hlenAB]; exact hi2),
      List.getElem?_append_right (by rw [hlenA]; exact hi1), hlenA,
      List.getElem?_replicate_of_lt (by omega)]
  · rw [List.getElem?_append_right (by rw [hlenAB]; exact hi), hlenAB,
      List.getElem?_drop]
    congr 1
    omega

/-- Witness for C10: padding a 5-byte read into a 1518-byte buffer of sevens,
checked at byte index 10, which the step zeroes. -/
theorem c10_padding_preserves_content_witness :
    (5 < ETHER_DATA_MIN ∧ ETHER_DATA_MIN ≤ (List.replicate ETHER_MTU 7).length) ∧
    ((10 < 5 → ((padIfUndersized (List.replicate ETHER_MTU 7) 5).1)[10]? =
        (List.replicate ETHER_MTU 7)[10]?) ∧
     (5 ≤ 10 → 10 < ETHER_DATA_MIN →
        ((padIfUndersized (List.replicate ETHER_MTU 7) 5).1)[10]? = some 0) ∧
     (ETHER_DATA_MIN ≤ 10 →
        ((padIfUndersized (List.replicate ETHER_MTU 7) 5).1)[10]? =
          (List.replicate ETHER_MTU 7)[10]?)) :=
  ⟨⟨by decide, by rw [List.length_replicate]; decide⟩,
   c10_padding_preserves_content (List.replicate ETHER_MTU 7) 5 10
     (by decide) (by rw [List.length_replicate]; decide)⟩

/-- C1: refuted as stated. The device-to-socket loop compares the read
length against ETHER_DATA_MIN = 46, not 60, and pads only up to 46: a
50-byte read is forwarded with length 50 rather than 60, and a 30-byte read
is forwarded with length 46 rather than 60. -/
theorem c1_padding_stops_at_46 :
    ETHER_DATA_MIN = 46 ∧
    (tapToVswitchStep (List.replicate ETHER_MTU 9) (List.replicate 50 1)).2.length = 50 ∧
    (tapToVswitchStep (List.replicate ETHER_MTU 9) (List.replicate 30 1)).2.length = 46 := by
  decide

/-- C2: refuted as stated. The learning step has no broadcast-source guard:
processing a datagram whose source MAC field is ff:ff:ff:ff:ff:ff makes the
broadcast address a key of the forwarding table, mapped to the sending
endpoint. -/
theorem c2_broadcast_can_be_learned :
    (dispatchStep [] (List.replicate MTU 0) ([9, 9, 9, 9, 9, 9] ++ broadcastMac) 5).map
      (fun r => mtGet r.1 broadcastMac) = some (some 5) := by
  decide

/-- C3: refuted as stated. With a table mapping macA to endpoint 10, a 64-byte frame for
destination macA is sent to endpoint 10 and to no other endpoint, but the
send carries the entire 1518-byte receive buffer, not the 64 received
bytes. -/
theorem c3_unicast_sends_whole_buffer :
    ([] ++ frameC3).length = 64 ∧
    (dispatchStep [(macA, 10)] (List.replicate MTU 0) frameC3 20).map
      (fun r => (r.2.map Send.dest, r.2.map (fun s => s.data.length))) =
      some ([10], [MTU]) ∧
    MTU ≠ 64 := by
  refine ⟨by decide, ?_, by decide⟩
  have hx : extractMacs ((writeInto (List.replicate MTU 0) frameC3).take frameC3.length) =
      some (macA, macB) := by
    rw [writeInto, List.take_left]
    decide
  have hlen : (writeInto (List.replicate MTU 0) frameC3).length = MTU := by
    rw [writeInto, List.length_append, List.length_drop, List.length_replicate]
    have h64 : frameC3.length = 64 := by decide
    rw [h64]
    decide
  have hl : (learn [(macA, 10)] macB 20).1 = [(macB, 20), (macA, 10)] := by decide
  have hg : mtGet [(macB, 20), (macA, 10)] macA = some 10 := by decide
  simp only [dispatchStep, hx, hl, forwardSends, hg, Option.map_some]
  simp [hlen]

/-- C4: when the destination MAC is the broadcast address and it has no
entry in the post-learning table, the switch emits exactly one send per
table entry whose MAC key differs from the frame source MAC, and no send
reaches an endpoint owned solely by the table entry of the sender. -/
theorem c4_broadcast_flood (t : MacTable) (oldBuf datagram : List Byte)
    (srcVport : Endpoint) (srcMac : Mac)
    (hx : extractMacs ((writeInto oldBuf datagram).take datagram.length) =
      some (broadcastMac, srcMac))
    (hnone : mtGet (learn t srcMac srcVport).1 broadcastMac = none) :
    dispatchStep t oldBuf datagram srcVport =
      some ((learn t srcMac srcVport).1,
        ((learn t srcMac srcVport).1.filter (fun p => decide (p.1 ≠ srcMac))).map
          (fun p => ⟨p.2, writeInto oldBuf datagram⟩)) ∧
    ∀ s ∈ ((learn t srcMac srcVport).1.filter (fun p => decide (p.1 ≠ srcMac))).map
        (fun p => (⟨p.2, writeInto oldBuf datagram⟩ : Send)),
      ∀ E : Endpoint,
        (∀ p ∈ (learn t srcMac srcVport).1, p.2 = E → p.1 = srcMac) → s.dest ≠ E := by
  constructor
  · simp [dispatchStep, hx, forwardSends, hnone]
  · intro s hs E hE
    obtain ⟨p, hp, rfl⟩ := List.mem_map.mp hs
    have hmem := (List.mem_filter.mp hp).1
    have hne := (List.mem_filter.mp hp).2
    simp only [decide_eq_true_eq] at hne
    intro hdest
    exact hne (hE p hmem hdest)

/-- Witness for C4: a table mapping macA, macB, macC to endpoints 10, 11, 12, broadcast
frame with source macA from endpoint 10: one send each to endpoints 11 and
12, none to 10. -/
theorem c4_broadcast_flood_witness :
    extractMacs ((writeInto (List.replicate MTU 0)
        (broadcastMac ++ macA ++ List.replicate 52 7)).take
        (broadcastMac ++ macA ++ List.replicate 52 7).length) =
      some (broadcastMac, macA) ∧
    mtGet (learn [(macA, 10), (macB, 11), (macC, 12)] macA 10).1 broadcastMac = none ∧
    dispatchStep [(macA, 10), (macB, 11), (macC, 12)] (List.replicate MTU 0)
        (broadcastMac ++ macA ++ List.replicate 52 7) 10 =
      some ([(macA, 10), (macB, 11), (macC, 12)],
        [⟨11, writeInto (List.replicate MTU 0)
            (broadcastMac ++ macA ++ List.replicate 52 7)⟩,
         ⟨12, writeInto (List.replicate MTU 0)
            (broadcastMac ++ macA ++ List.replicate 52 7)⟩]) := by
  have hx : extractMacs ((writeInto (List.replicate MTU 0)
      (broadcastMac ++ macA ++ List.replicate 52 7)).take
      (broadcastMac ++ macA ++ List.replicate 52 7).length) =
      some (broadcastMac, macA) := by
    rw [writeInto, List.take_left]
    decide
  have hnone : mtGet (learn [(macA, 10), (macB, 11), (macC, 12)] macA 10).1
      broadcastMac = none := by decide
  refine ⟨hx, hnone, ?_⟩
  have h := (c4_broadcast_flood [(macA, 10), (macB, 11), (macC, 12)]
    (List.replicate MTU 0) (broadcastMac ++ macA ++ List.replicate 52 7) 10 macA
    hx hnone).1
  exact h.trans rfl

/-- C7: a frame whose destination MAC has no entry in the post-learning
table and is not the broadcast address produces zero sends. -/
theorem c7_unknown_unicast_drop (t : MacTable) (oldBuf datagram : List Byte)
    (srcVport : Endpoint) (dstMac srcMac : Mac)
    (hx : extractMacs ((writeInto oldBuf datagram).take datagram.length) =
      some (dstMac, srcMac))
    (hnone : mtGet (learn t srcMac srcVport).1 dstMac = none)
    (hb : dstMac ≠ broadcastMac) :
    dispatchStep t oldBuf datagram srcVport =
      some ((learn t srcMac srcVport).1, []) := by
  simp [dispatchStep, hx, forwardSends, hnone, hb]

/-- Witness for C7: a table mapping macA to endpoint 10, frame from endpoint 11 with source
macB and unknown destination macC: the table learns macB but nothing is
sent. -/
theorem c7_unknown_unicast_drop_witness :
    extractMacs ((writeInto (List.replicate MTU 0)
        (macC ++ macB ++ List.replicate 52 7)).take
        (macC ++ macB ++ List.replicate 52 7).length) = some (macC, macB) ∧
    mtGet (learn [(macA, 10)] macB 11).1 macC = none ∧
    macC ≠ broadcastMac ∧
    dispatchStep [(macA, 10)] (List.replicate MTU 0)
        (macC ++ macB ++ List.replicate 52 7) 11 =
      some ((learn [(macA, 10)] macB 11).1, []) :=
  ⟨by decide, by decide, by decide,
    c7_unknown_unicast_drop [(macA, 10)] (List.replicate MTU 0)
      (macC ++ macB ++ List.replicate 52 7) 11 macC macB
      (by decide) (by decide) (by decide)⟩

end L2vpn
